import Mathlib

/-!
Shallow embedding of the stroke-fitting and rendering core of the
signature-pad repository (src/src/signature_pad.ts together with the
bundled Point/Bezier implementation in src/unnamed/part_000, whose
TypeScript source for `Point` is src/unnamed/part_002).

Coordinates, timestamps and widths are modelled as real numbers.  The
JavaScript code computes with IEEE doubles; the only place where the
difference is observable on the paths verified here is the `NaN`
behaviour of degenerate control-point windows, which is modelled
separately at the end of the file with an explicit `JSNum` type.
-/

namespace SigPad

noncomputable section

/-- A captured input sample: position and timestamp (`Point` in the
source).  The pressure/tilt/rotation channels are never consulted by the
fitting or rendering pipeline modelled here, so they are omitted. -/
structure Pt where
  x : ℝ
  y : ℝ
  time : ℝ

/-- `Point.prototype.distanceTo`: Euclidean distance, ignoring time. -/
def distanceTo (p s : Pt) : ℝ :=
  Real.sqrt ((p.x - s.x) ^ 2 + (p.y - s.y) ^ 2)

/-- `Point.prototype.velocityFrom`: distance over time delta, with an
explicit zero result when the timestamps coincide. -/
def velocityFrom (p s : Pt) : ℝ :=
  if p.time = s.time then 0 else distanceTo p s / (p.time - s.time)

/-- A bare coordinate pair (the control points built by
`calculateControlPoints` are fresh `Point`s whose time field is never
used). -/
structure XY where
  x : ℝ
  y : ℝ

/-- `Bezier.calculateControlPoints`.  In JavaScript, `k = l2 / (l1 + l2)`
is `NaN` when both window legs are degenerate (`l1 + l2 = 0`); Lean's
division returns `0` there instead.  That fully degenerate case is
modelled faithfully by the `JSNum` development at the end of this file;
every theorem below that touches this definition stays away from it. -/
def calculateControlPoints (s1 s2 s3 : Pt) : XY × XY :=
  let dx1 := s1.x - s2.x
  let dy1 := s1.y - s2.y
  let dx2 := s2.x - s3.x
  let dy2 := s2.y - s3.y
  let m1 : XY := ⟨(s1.x + s2.x) / 2, (s1.y + s2.y) / 2⟩
  let m2 : XY := ⟨(s2.x + s3.x) / 2, (s2.y + s3.y) / 2⟩
  let l1 := Real.sqrt (dx1 * dx1 + dy1 * dy1)
  let l2 := Real.sqrt (dx2 * dx2 + dy2 * dy2)
  let dxm := m1.x - m2.x
  let dym := m1.y - m2.y
  let k := l2 / (l1 + l2)
  let cm : XY := ⟨m2.x + dxm * k, m2.y + dym * k⟩
  let tx := s2.x - cm.x
  let ty := s2.y - cm.y
  (⟨m1.x + tx, m1.y + ty⟩, ⟨m2.x + tx, m2.y + ty⟩)

/-- A fitted cubic segment (`Bezier`).  Field order follows the source
constructor `Bezier(startPoint, control2, control1, endPoint,
startWidth, endWidth)`. -/
structure Bezier where
  startPoint : Pt
  control2 : XY
  control1 : XY
  endPoint : Pt
  startWidth : ℝ
  endWidth : ℝ

/-- `Bezier.fromPoints`: `control2` comes from the `(p0,p1,p2)` window,
`control1` from the `(p1,p2,p3)` window, and the segment spans
`p1 → p2`. -/
def fromPoints (p0 p1 p2 p3 : Pt) (ws we : ℝ) : Bezier :=
  ⟨p1, (calculateControlPoints p0 p1 p2).2, (calculateControlPoints p1 p2 p3).1, p2, ws, we⟩

/-- The configuration fields of `SignaturePad` consulted by the fitting
core (constructor defaults: 0.7, 0.5, 2.5, 5). -/
structure Cfg where
  velocityFilterWeight : ℝ
  minWidth : ℝ
  maxWidth : ℝ
  minDistance : ℝ

def defaultCfg : Cfg := ⟨0.7, 0.5, 2.5, 5⟩

/-- The per-stroke mutable state of the fitter: `_lastPoints`,
`_lastVelocity`, `_lastWidth`. -/
structure FitState where
  lastPoints : List Pt
  lastVelocity : ℝ
  lastWidth : ℝ

/-- `_reset`: empty window, zero velocity, pending width
`(minWidth + maxWidth) / 2`. -/
def resetState (c : Cfg) : FitState := ⟨[], 0, (c.minWidth + c.maxWidth) / 2⟩

/-- `_strokeWidth`. -/
def strokeWidth (c : Cfg) (velocity : ℝ) : ℝ :=
  max (c.maxWidth / (velocity + 1)) c.minWidth

/-- `_calculateCurveWidths`: returns the state with updated
`_lastVelocity`/`_lastWidth` plus the `(start, end)` width pair. -/
def calculateCurveWidths (c : Cfg) (st : FitState) (sp ep : Pt) :
    FitState × ℝ × ℝ :=
  let velocity :=
    c.velocityFilterWeight * velocityFrom ep sp +
      (1 - c.velocityFilterWeight) * st.lastVelocity
  let newWidth := strokeWidth c velocity
  (⟨st.lastPoints, velocity, newWidth⟩, st.lastWidth, newWidth)

/-- The body of `_addPoint` after the push, as a function of the pushed
window `_lastPoints ++ [point]`: with three points duplicate the first
to the front, emit over window positions 1 and 2, and drop the window
head. -/
def addPointAux (c : Cfg) (st : FitState) : List Pt → FitState × Option Bezier
  | [a, b, c3] =>
      let (st1, ws, we) := calculateCurveWidths c st a b
      (⟨[a, b, c3], st1.lastVelocity, st1.lastWidth⟩,
        some (fromPoints a a b c3 ws we))
  | a :: b :: c3 :: d :: rest =>
      let (st1, ws, we) := calculateCurveWidths c st b c3
      (⟨b :: c3 :: d :: rest, st1.lastVelocity, st1.lastWidth⟩,
        some (fromPoints a b c3 d ws we))
  | pts => (⟨pts, st.lastVelocity, st.lastWidth⟩, none)

/-- `_addPoint`.  The reachable window length before a call is at most 3,
which the match in `addPointAux` mirrors exactly. -/
def addPoint (c : Cfg) (st : FitState) (p : Pt) : FitState × Option Bezier :=
  addPointAux c st (st.lastPoints ++ [p])

/-- The fitter iterated over a point list from an arbitrary state,
collecting the emitted segments in order. -/
def fitRunFrom (c : Cfg) (st : FitState) : List Pt → FitState × List Bezier
  | [] => (st, [])
  | p :: ps =>
      ((fitRunFrom c (addPoint c st p).1 ps).1,
        (addPoint c st p).2.toList ++ (fitRunFrom c (addPoint c st p).1 ps).2)

/-- A fresh stroke: the fitter run from `_reset` state. -/
def fitRun (c : Cfg) (pts : List Pt) : FitState × List Bezier :=
  fitRunFrom c (resetState c) pts

/-- Exactly the fields of a fitted segment that `_drawCurve` (and the
SVG path emitter) consume: endpoint and control coordinates plus the two
widths.  Timestamps are not rendered. -/
structure CurveGeom where
  x0 : ℝ
  y0 : ℝ
  c1x : ℝ
  c1y : ℝ
  c2x : ℝ
  c2y : ℝ
  x3 : ℝ
  y3 : ℝ
  ws : ℝ
  we : ℝ

def geom (b : Bezier) : CurveGeom :=
  ⟨b.startPoint.x, b.startPoint.y, b.control1.x, b.control1.y,
    b.control2.x, b.control2.y, b.endPoint.x, b.endPoint.y,
    b.startWidth, b.endWidth⟩

/-- A drawing operation issued to the renderer: a dot
(`_drawDot`, which consumes only the x/y of the point) or a curve
(`_drawCurve`). -/
inductive Op where
  | dot : String → ℝ → ℝ → Op
  | curve : String → CurveGeom → Op

def isCurve : Op → Bool
  | .curve _ _ => true
  | .dot _ _ _ => false

/-- Live-capture state of one stroke: fitter state, the recorded points
of the active group, and the drawing operations issued so far. -/
structure LiveState where
  fs : FitState
  recorded : List Pt
  ops : List Op

/-- The recorded form of an admitted sample: `_strokeUpdate` stores
`{x: point.x, y: point.y, time: point.time - _timeLastPoint}`. -/
def recOf (t0 : ℝ) (p : Pt) : Pt := ⟨p.x, p.y, p.time - t0⟩

/-- One `_strokeUpdate` call on an already-begun stroke, with
`_timeLastPoint` fixed at `t0` (it is assigned once per `clear`).  A
sample is admitted iff the group is empty or its distance to the last
recorded point exceeds `minDistance`; the first admitted sample is
rendered as a dot, later ones as the fitted curve when one is
emitted. -/
def liveStep (c : Cfg) (color : String) (t0 : ℝ) (st : LiveState) (p : Pt) :
    LiveState :=
  match st.recorded.getLast? with
  | none =>
      ⟨(addPoint c st.fs p).1, st.recorded ++ [recOf t0 p],
        st.ops ++ [Op.dot color p.x p.y]⟩
  | some q =>
      if distanceTo p q ≤ c.minDistance then st
      else
        ⟨(addPoint c st.fs p).1, st.recorded ++ [recOf t0 p],
          st.ops ++ (addPoint c st.fs p).2.toList.map fun b => Op.curve color (geom b)⟩

def liveStrokeFrom (c : Cfg) (color : String) (t0 : ℝ) (st : LiveState) :
    List Pt → LiveState
  | [] => st
  | p :: ps => liveStrokeFrom c color t0 (liveStep c color t0 st p) ps

/-- One whole stroke captured live: `_strokeBegin` (fresh group and
`_reset`) followed by `_strokeUpdate` on each raw sample. -/
def liveStroke (c : Cfg) (color : String) (t0 : ℝ) (raw : List Pt) :
    LiveState :=
  liveStrokeFrom c color t0 ⟨resetState c, [], []⟩ raw

/-- A stored point group (`IPointGroup`, projected to the fields the
pipeline reads). -/
structure PGroup where
  color : String
  points : List Pt

/-- The `Point` constructor as invoked by `_fromData`:
`new Point(x, y, time)` runs `this.time = time || Date.now()`, so a zero
recorded timestamp is silently replaced by the wall clock `now`. -/
def toPoint (now : ℝ) (p : Pt) : Pt :=
  ⟨p.x, p.y, if p.time = 0 then now else p.time⟩

/-- The inner loop of `_fromData` over one multi-point group: every
point is converted and handed to `_addPoint`; the third output lists the
points actually fed to the fitter. -/
def replayPoints (c : Cfg) (now : ℝ) (st : FitState) :
    List Pt → FitState × List Bezier × List Pt
  | [] => (st, [], [])
  | p :: ps =>
      ((replayPoints c now (addPoint c st (toPoint now p)).1 ps).1,
        (addPoint c st (toPoint now p)).2.toList ++
          (replayPoints c now (addPoint c st (toPoint now p)).1 ps).2.1,
        toPoint now p :: (replayPoints c now (addPoint c st (toPoint now p)).1 ps).2.2)

/-- `_fromData` on one group.  A group with more than one point is
replayed through the fitter (the `j == 0` reset makes the run start from
`_reset` state); a single-point group is rendered as one dot.  The
source would fault on an empty group (`points[0]` is `undefined`); such
groups are unreachable for captured data and yield no operations
here. -/
def replayGroup (c : Cfg) (now : ℝ) (g : PGroup) : List Op × List Pt :=
  match g.points with
  | [] => ([], [])
  | [p] => ([Op.dot g.color p.x p.y], [])
  | _ =>
      ((replayPoints c now (resetState c) g.points).2.1.map
        (fun b => Op.curve g.color (geom b)),
        (replayPoints c now (resetState c) g.points).2.2)

/-- `_fromData` over a whole stored drawing.  Each group resets the
fitter before use, so the groups are independent. -/
def replayData (c : Cfg) (now : ℝ) (gs : List PGroup) : List Op :=
  (gs.map fun g => (replayGroup c now g).1).flatten

/-- Modelled from the spec: the control point that §4.3 claims the
construction produces, namely `b + (b - cm)` for the length-weighted
blend `cm` of the two midpoints.  This definition exists only to be
compared against `calculateControlPoints`. -/
def specControlPoint (a b c3 : Pt) : XY :=
  let m1 : XY := ⟨(a.x + b.x) / 2, (a.y + b.y) / 2⟩
  let m2 : XY := ⟨(b.x + c3.x) / 2, (b.y + c3.y) / 2⟩
  let l1 := distanceTo a b
  let l2 := distanceTo b c3
  let k := l2 / (l1 + l2)
  let cm : XY := ⟨m2.x + (m1.x - m2.x) * k, m2.y + (m1.y - m2.y) * k⟩
  ⟨b.x + (b.x - cm.x), b.y + (b.y - cm.y)⟩


/-- Helper: evaluate a square root of a perfect square. -/
theorem sqrt_eval {a b : ℝ} (hb : 0 ≤ b) (h : a = b ^ 2) : Real.sqrt a = b := by
  subst h; exact Real.sqrt_sq hb

/-- Claim C1, counterexample.  On the scenario samples
`[(0,0,t=0), (10,0,t=50), (20,0,t=100), (30,0,t=150)]` the fresh fitter
does not emit exactly one segment: it emits two, and the third call
already emits one (the duplicate-first-point rule fills the window to 4
on the third sample). -/
theorem claim1_counterexample :
    (fitRun defaultCfg [⟨0, 0, 0⟩, ⟨10, 0, 50⟩, ⟨20, 0, 100⟩, ⟨30, 0, 150⟩]).2.length ≠ 1 ∧
    ((addPoint defaultCfg
        (addPoint defaultCfg
          (addPoint defaultCfg (resetState defaultCfg) ⟨0, 0, 0⟩).1 ⟨10, 0, 50⟩).1
        ⟨20, 0, 100⟩).2).isSome = true := by
  constructor
  · simp only [show (fitRun defaultCfg
      [⟨0, 0, 0⟩, ⟨10, 0, 50⟩, ⟨20, 0, 100⟩, ⟨30, 0, 150⟩]).2.length = 2 from rfl]
    decide
  · rfl

/-- Claim C1 (amended): with `minDistance = 5` all four scenario samples
are admitted, and feeding them one at a time into a fresh fitter emits
exactly two segments: none on the first two calls, one on the third call
spanning samples 1 and 2 (indices 0,1 — the duplicated first point being
the pre-anchor), and one on the fourth call spanning samples 2 and 3
(indices 1,2). -/
theorem claim1_amended :
    ((liveStroke defaultCfg "black" 0
        [⟨0, 0, 0⟩, ⟨10, 0, 50⟩, ⟨20, 0, 100⟩, ⟨30, 0, 150⟩]).recorded.map
        (fun p => (p.x, p.y)) = [(0, 0), (10, 0), (20, 0), (30, 0)])
    ∧ ((fitRun defaultCfg [⟨0, 0, 0⟩, ⟨10, 0, 50⟩, ⟨20, 0, 100⟩, ⟨30, 0, 150⟩]).2.map
        (fun b => ((b.startPoint.x, b.startPoint.y), (b.endPoint.x, b.endPoint.y))) =
        [((0, 0), (10, 0)), ((10, 0), (20, 0))])
    ∧ (addPoint defaultCfg (resetState defaultCfg) ⟨0, 0, 0⟩).2 = none
    ∧ ((addPoint defaultCfg
          (addPoint defaultCfg (resetState defaultCfg) ⟨0, 0, 0⟩).1 ⟨10, 0, 50⟩).2 = none)
    ∧ (((addPoint defaultCfg
          (addPoint defaultCfg
            (addPoint defaultCfg (resetState defaultCfg) ⟨0, 0, 0⟩).1 ⟨10, 0, 50⟩).1
          ⟨20, 0, 100⟩).2).isSome = true)
    ∧ (((addPoint defaultCfg
          (addPoint defaultCfg
            (addPoint defaultCfg
              (addPoint defaultCfg (resetState defaultCfg) ⟨0, 0, 0⟩).1 ⟨10, 0, 50⟩).1
            ⟨20, 0, 100⟩).1
          ⟨30, 0, 150⟩).2).isSome = true) := by
  refine ⟨?_, rfl, rfl, rfl, rfl, rfl⟩
  have h100 : Real.sqrt 100 = 10 := sqrt_eval (by norm_num) (by norm_num)
  norm_num [liveStroke, liveStrokeFrom, liveStep, distanceTo, recOf, defaultCfg, h100]

/-- Modelled from the spec (amendment of §4.3): the construction yields
two control points, each obtained by translating one of the two
midpoints by the vector `b - cm`. -/
def specControlPair (a b c3 : Pt) : XY × XY :=
  let m1 : XY := ⟨(a.x + b.x) / 2, (a.y + b.y) / 2⟩
  let m2 : XY := ⟨(b.x + c3.x) / 2, (b.y + c3.y) / 2⟩
  let l1 := distanceTo a b
  let l2 := distanceTo b c3
  let k := l2 / (l1 + l2)
  let cm : XY := ⟨m2.x + (m1.x - m2.x) * k, m2.y + (m1.y - m2.y) * k⟩
  (⟨m1.x + (b.x - cm.x), m1.y + (b.y - cm.y)⟩,
    ⟨m2.x + (b.x - cm.x), m2.y + (b.y - cm.y)⟩)

/-- Claim C2 (amended): for every three consecutive points the
control-point construction returns the pair of midpoints `m1`, `m2`
translated by `b - cm` (with `cm` the length-weighted blend of the
midpoints), not the single point `b + (b - cm)` claimed by the spec. -/
theorem claim2_amended (a b c3 : Pt) :
    calculateControlPoints a b c3 = specControlPair a b c3 := by
  simp only [calculateControlPoints, specControlPair, distanceTo]
  norm_num [pow_two]

/-- Claim C2, counterexample: at `a = (0,0)`, `b = (4,0)`, `c = (4,3)`
neither control point produced by the construction equals the spec's
`b + (b - cm)` (which evaluates to `(34/7, -6/7)` there, while the code
produces `(20/7, -6/7)` and `(34/7, 9/14)`). -/
theorem claim2_counterexample :
    (calculateControlPoints ⟨0, 0, 0⟩ ⟨4, 0, 0⟩ ⟨4, 3, 0⟩).1 ≠
        specControlPoint ⟨0, 0, 0⟩ ⟨4, 0, 0⟩ ⟨4, 3, 0⟩ ∧
    (calculateControlPoints ⟨0, 0, 0⟩ ⟨4, 0, 0⟩ ⟨4, 3, 0⟩).2 ≠
        specControlPoint ⟨0, 0, 0⟩ ⟨4, 0, 0⟩ ⟨4, 3, 0⟩ := by
  have h16 : Real.sqrt 16 = 4 := sqrt_eval (by norm_num) (by norm_num)
  have h9 : Real.sqrt 9 = 3 := sqrt_eval (by norm_num) (by norm_num)
  constructor <;>
    · norm_num [calculateControlPoints, specControlPoint, distanceTo, XY.mk.injEq, h16, h9]


/-- Width linkage along a list of emitted segments: each segment starts
at the pending width and leaves its own end width pending. -/
def ChainW : ℝ → List Bezier → Prop
  | _, [] => True
  | w, b :: bs => b.startWidth = w ∧ ChainW b.endWidth bs

/-- `_addPoint` either emits nothing and leaves the width state alone,
or emits a segment whose start width is the pending width and leaves the
segment's end width pending. -/
theorem addPoint_width (c : Cfg) (st : FitState) (p : Pt) :
    ((addPoint c st p).2 = none ∧ (addPoint c st p).1.lastWidth = st.lastWidth ∧
      (addPoint c st p).1.lastVelocity = st.lastVelocity) ∨
    (∃ b, (addPoint c st p).2 = some b ∧ b.startWidth = st.lastWidth ∧
      (addPoint c st p).1.lastWidth = b.endWidth) := by
  rw [addPoint]
  rcases hl : st.lastPoints ++ [p] with _ | ⟨a, _ | ⟨b, _ | ⟨c3, _ | ⟨d, rest⟩⟩⟩⟩
  · simp at hl
  · left; simp [addPointAux]
  · left; simp [addPointAux]
  · right
    exact ⟨_, rfl, rfl, rfl⟩
  · right
    exact ⟨_, rfl, rfl, rfl⟩

theorem fitRunFrom_chainW (c : Cfg) (pts : List Pt) : ∀ (st : FitState),
    ChainW st.lastWidth (fitRunFrom c st pts).2 := by
  induction pts with
  | nil => intro st; trivial
  | cons p ps ih =>
      intro st
      rcases addPoint_width c st p with ⟨h1, h2, _⟩ | ⟨b, h1, h2, h3⟩
      · have hih := ih (addPoint c st p).1
        rw [h2] at hih
        simpa [fitRunFrom, h1] using hih
      · have hih := ih (addPoint c st p).1
        rw [h3] at hih
        simp [fitRunFrom, h1, ChainW]
        exact ⟨h2, hih⟩

theorem chainW_chain' : ∀ (l : List Bezier) (w : ℝ), ChainW w l →
    List.Chain' (fun x y => y.startWidth = x.endWidth) l
  | [], _, _ => List.chain'_nil
  | [b], _, _ => List.chain'_singleton b
  | b :: b2 :: bs, w, h => by
      have htail := chainW_chain' (b2 :: bs) b.endWidth h.2
      exact List.Chain'.cons h.2.1 htail

/-- Claim C7: along any single stroke (a fitter run from `_reset`), each
emitted segment's start width equals the previous segment's end width. -/
theorem claim7 (c : Cfg) (pts : List Pt) :
    List.Chain' (fun x y => y.startWidth = x.endWidth) (fitRun c pts).2 :=
  chainW_chain' _ _ (fitRunFrom_chainW c pts (resetState c))

/-- Claim C10: the first segment emitted by any stroke (a fitter run
from `_reset` state, as performed by both live capture and replay) has
start width exactly `(minWidth + maxWidth) / 2`, whatever the samples'
velocities are. -/
theorem claim10 (c : Cfg) (pts : List Pt) :
    (fitRun c pts).2.head?.map Bezier.startWidth = none ∨
    (fitRun c pts).2.head?.map Bezier.startWidth =
      some ((c.minWidth + c.maxWidth) / 2) := by
  have h := fitRunFrom_chainW c pts (resetState c)
  rcases hfr : (fitRunFrom c (resetState c) pts).2 with _ | ⟨b, bs⟩
  · left; simp [fitRun, hfr]
  · right
    rw [hfr] at h
    simp [fitRun, hfr]
    exact h.1

theorem velocityFrom_nonneg (ep sp : Pt) (ht : sp.time ≤ ep.time) :
    0 ≤ velocityFrom ep sp := by
  unfold velocityFrom
  split
  · exact le_refl 0
  · next h =>
      apply div_nonneg (Real.sqrt_nonneg _)
      have : sp.time < ep.time := lt_of_le_of_ne ht (fun e => h e.symm)
      linarith

theorem strokeWidth_bounds (c : Cfg) (v : ℝ) (hmax : 0 ≤ c.maxWidth)
    (hmm : c.minWidth ≤ c.maxWidth) (hv : 0 ≤ v) :
    c.minWidth ≤ strokeWidth c v ∧ strokeWidth c v ≤ c.maxWidth := by
  unfold strokeWidth
  refine ⟨le_max_right _ _, max_le ?_ hmm⟩
  apply div_le_self hmax
  linarith

/-- The smoothed-velocity/width update keeps the invariants when the
filter weight lies in `[0, 1]` and the pair is ordered in time. -/
theorem calculateCurveWidths_bounds (c : Cfg) (st : FitState) (sp ep : Pt)
    (hmax : 0 ≤ c.maxWidth) (hmm : c.minWidth ≤ c.maxWidth)
    (ha0 : 0 ≤ c.velocityFilterWeight) (ha1 : c.velocityFilterWeight ≤ 1)
    (hv : 0 ≤ st.lastVelocity) (hw1 : c.minWidth ≤ st.lastWidth)
    (hw2 : st.lastWidth ≤ c.maxWidth) (ht : sp.time ≤ ep.time) :
    0 ≤ (calculateCurveWidths c st sp ep).1.lastVelocity ∧
    c.minWidth ≤ (calculateCurveWidths c st sp ep).1.lastWidth ∧
    (calculateCurveWidths c st sp ep).1.lastWidth ≤ c.maxWidth ∧
    c.minWidth ≤ (calculateCurveWidths c st sp ep).2.1 ∧
    (calculateCurveWidths c st sp ep).2.1 ≤ c.maxWidth ∧
    c.minWidth ≤ (calculateCurveWidths c st sp ep).2.2 ∧
    (calculateCurveWidths c st sp ep).2.2 ≤ c.maxWidth := by
  have hvel : 0 ≤ c.velocityFilterWeight * velocityFrom ep sp +
      (1 - c.velocityFilterWeight) * st.lastVelocity := by
    have h1 := mul_nonneg ha0 (velocityFrom_nonneg ep sp ht)
    have h2 : 0 ≤ (1 - c.velocityFilterWeight) * st.lastVelocity :=
      mul_nonneg (by linarith) hv
    linarith
  have hsw := strokeWidth_bounds c _ hmax hmm hvel
  exact ⟨hvel, hsw.1, hsw.2, hw1, hw2, hsw.1, hsw.2⟩

/-- Invariant induction for the width bounds over a fitter run. -/
theorem fitRunFrom_width_bounds (c : Cfg)
    (hmax : 0 ≤ c.maxWidth) (hmm : c.minWidth ≤ c.maxWidth)
    (ha0 : 0 ≤ c.velocityFilterWeight) (ha1 : c.velocityFilterWeight ≤ 1) :
    ∀ (pts : List Pt) (st : FitState),
      0 ≤ st.lastVelocity → c.minWidth ≤ st.lastWidth → st.lastWidth ≤ c.maxWidth →
      List.Chain' (fun p q => p.time ≤ q.time) (st.lastPoints ++ pts) →
      (0 ≤ (fitRunFrom c st pts).1.lastVelocity ∧
        c.minWidth ≤ (fitRunFrom c st pts).1.lastWidth ∧
        (fitRunFrom c st pts).1.lastWidth ≤ c.maxWidth) ∧
      ∀ b ∈ (fitRunFrom c st pts).2,
        c.minWidth ≤ b.startWidth ∧ b.startWidth ≤ c.maxWidth ∧
        c.minWidth ≤ b.endWidth ∧ b.endWidth ≤ c.maxWidth := by
  intro pts
  induction pts with
  | nil =>
      intro st hv hw1 hw2 _
      exact ⟨⟨hv, hw1, hw2⟩, by simp [fitRunFrom]⟩
  | cons p ps ih =>
      intro st hv hw1 hw2 hch
      have hch' : List.Chain' (fun p q => p.time ≤ q.time)
          ((st.lastPoints ++ [p]) ++ ps) := by
        simpa using hch
      rw [show fitRunFrom c st (p :: ps) =
        ((fitRunFrom c (addPoint c st p).1 ps).1,
          (addPoint c st p).2.toList ++ (fitRunFrom c (addPoint c st p).1 ps).2) from rfl]
      rw [addPoint]
      rcases hl : st.lastPoints ++ [p] with _ | ⟨a, _ | ⟨b, _ | ⟨c3, _ | ⟨d, rest⟩⟩⟩⟩
  
      · simp at hl
      · -- window of one: no emission
        rw [hl] at hch'
        have := ih ⟨[a], st.lastVelocity, st.lastWidth⟩ hv hw1 hw2 hch'
        simpa [addPointAux] using this
      · -- window of two: no emission
        rw [hl] at hch'
        have := ih ⟨[a, b], st.lastVelocity, st.lastWidth⟩ hv hw1 hw2 hch'
        simpa [addPointAux] using this
      · -- window of three: duplicate-first emission over (a, b)
        rw [hl] at hch'
        have hab : a.time ≤ b.time := (List.chain'_cons.mp hch').1
        have hcw := calculateCurveWidths_bounds c st a b hmax hmm ha0 ha1 hv hw1 hw2 hab
        have hst := ih ⟨[a, b, c3], (calculateCurveWidths c st a b).1.lastVelocity,
            (calculateCurveWidths c st a b).1.lastWidth⟩
          hcw.1 hcw.2.1 hcw.2.2.1 hch'
        refine ⟨hst.1, ?_⟩
        intro bz hbz
        simp only [addPointAux, Option.toList_some, List.mem_append,
          List.mem_singleton] at hbz
        rcases hbz with hbz | hbz
        · subst hbz
          exact ⟨hcw.2.2.2.1, hcw.2.2.2.2.1, hcw.2.2.2.2.2.1, hcw.2.2.2.2.2.2⟩
        · exact hst.2 bz hbz
      · -- window of four: emission over (b, c3), window head dropped
        rw [hl] at hch'
        have hbc : b.time ≤ c3.time := (List.chain'_cons.mp (List.Chain'.tail hch')).1
        have hcw := calculateCurveWidths_bounds c st b c3 hmax hmm ha0 ha1 hv hw1 hw2 hbc
        have hst := ih ⟨b :: c3 :: d :: rest, (calculateCurveWidths c st b c3).1.lastVelocity,
            (calculateCurveWidths c st b c3).1.lastWidth⟩
          hcw.1 hcw.2.1 hcw.2.2.1 (List.Chain'.tail hch')
        refine ⟨hst.1, ?_⟩
        intro bz hbz
        simp only [addPointAux, Option.toList_some, List.mem_append,
          List.mem_singleton] at hbz
        rcases hbz with hbz | hbz
        · subst hbz
          exact ⟨hcw.2.2.2.1, hcw.2.2.2.2.1, hcw.2.2.2.2.2.1, hcw.2.2.2.2.2.2⟩
        · exact hst.2 bz hbz

/-- Claim C6 (amended): when `0 ≤ maxWidth`, `minWidth ≤ maxWidth`, the
velocity filter weight lies in `[0, 1]` and the samples are
non-decreasing in time, every fitted segment of the stroke has both
widths inside `[minWidth, maxWidth]`. -/
theorem claim6_amended (c : Cfg) (pts : List Pt)
    (hmax : 0 ≤ c.maxWidth) (hmm : c.minWidth ≤ c.maxWidth)
    (ha0 : 0 ≤ c.velocityFilterWeight) (ha1 : c.velocityFilterWeight ≤ 1)
    (ht : List.Chain' (fun p q => p.time ≤ q.time) pts) :
    ∀ b ∈ (fitRun c pts).2,
      c.minWidth ≤ b.startWidth ∧ b.startWidth ≤ c.maxWidth ∧
      c.minWidth ≤ b.endWidth ∧ b.endWidth ≤ c.maxWidth := by
  have h := fitRunFrom_width_bounds c hmax hmm ha0 ha1 pts (resetState c)
    (le_refl 0) (by simp [resetState]; linarith) (by simp [resetState]; linarith)
    (by simpa [resetState] using ht)
  exact h.2

theorem claim6_witness :
    ((0 : ℝ) ≤ defaultCfg.maxWidth ∧ defaultCfg.minWidth ≤ defaultCfg.maxWidth ∧
      (0 : ℝ) ≤ defaultCfg.velocityFilterWeight ∧ defaultCfg.velocityFilterWeight ≤ 1 ∧
      List.Chain' (fun p q => p.time ≤ q.time)
        [(⟨0, 0, 0⟩ : Pt), ⟨10, 0, 50⟩, ⟨20, 0, 100⟩]) ∧
    ∀ b ∈ (fitRun defaultCfg [(⟨0, 0, 0⟩ : Pt), ⟨10, 0, 50⟩, ⟨20, 0, 100⟩]).2,
      defaultCfg.minWidth ≤ b.startWidth ∧ b.startWidth ≤ defaultCfg.maxWidth ∧
      defaultCfg.minWidth ≤ b.endWidth ∧ b.endWidth ≤ defaultCfg.maxWidth := by
  refine ⟨⟨by norm_num [defaultCfg], by norm_num [defaultCfg], by norm_num [defaultCfg],
    by norm_num [defaultCfg], by norm_num⟩, ?_⟩
  exact claim6_amended defaultCfg _ (by norm_num [defaultCfg]) (by norm_num [defaultCfg])
    (by norm_num [defaultCfg]) (by norm_num [defaultCfg]) (by norm_num)

/-- Claim C6, counterexample: with the configured bounds
`minWidth = -3 ≤ maxWidth = -2` (the claim's stated precondition) and
non-decreasing timestamps, the single fitted segment of this stroke has
`endWidth = -200/107 > maxWidth`, so the widths do not stay inside
`[minWidth, maxWidth]`. -/
theorem claim6_counterexample :
    (fitRun ⟨0.7, -3, -2, 5⟩ [⟨0, 0, 0⟩, ⟨10, 0, 100⟩, ⟨20, 0, 200⟩]).2.map
        Bezier.endWidth = [-(200 / 107)] ∧
    ¬ (∀ b ∈ (fitRun ⟨0.7, -3, -2, 5⟩ [⟨0, 0, 0⟩, ⟨10, 0, 100⟩, ⟨20, 0, 200⟩]).2,
        (Cfg.mk 0.7 (-3) (-2) 5).minWidth ≤ b.startWidth ∧
        b.startWidth ≤ (Cfg.mk 0.7 (-3) (-2) 5).maxWidth ∧
        (Cfg.mk 0.7 (-3) (-2) 5).minWidth ≤ b.endWidth ∧
        b.endWidth ≤ (Cfg.mk 0.7 (-3) (-2) 5).maxWidth) := by
  have h100 : Real.sqrt 100 = 10 := sqrt_eval (by norm_num) (by norm_num)
  have he : (fitRun ⟨0.7, -3, -2, 5⟩ [⟨0, 0, 0⟩, ⟨10, 0, 100⟩, ⟨20, 0, 200⟩]).2.map
      Bezier.endWidth = [-(200 / 107)] := by
    norm_num [fitRun, fitRunFrom, addPoint, addPointAux, resetState,
      calculateCurveWidths, strokeWidth, velocityFrom, distanceTo, fromPoints,
      max_def, h100]
  refine ⟨he, fun hcl => ?_⟩
  rcases hl : (fitRun ⟨0.7, -3, -2, 5⟩ [⟨0, 0, 0⟩, ⟨10, 0, 100⟩, ⟨20, 0, 200⟩]).2
    with _ | ⟨b0, bs⟩
  · rw [hl] at he; simp at he
  · rw [hl] at he
    simp only [List.map_cons, List.cons.injEq] at he
    have hb := (hcl b0 (by rw [hl]; exact List.mem_cons_self b0 bs)).2.2.2
    rw [he.1] at hb
    norm_num at hb


theorem liveStrokeFrom_chain (c : Cfg) (color : String) (t0 : ℝ) :
    ∀ (raw : List Pt) (st : LiveState),
      List.Chain' (fun p q => ¬ (distanceTo q p ≤ c.minDistance)) st.recorded →
      List.Chain' (fun p q => ¬ (distanceTo q p ≤ c.minDistance))
        (liveStrokeFrom c color t0 st raw).recorded := by
  intro raw
  induction raw with
  | nil => intro st h; exact h
  | cons p ps ih =>
      intro st h
      apply ih
      cases hq : st.recorded.getLast? with
      | none =>
          have hr : st.recorded = [] := List.getLast?_eq_none_iff.mp hq
          simp [liveStep, hq, hr]
      | some q =>
          simp only [liveStep, hq]
          split
          · exact h
          · next h2 =>
              refine List.Chain'.append h (List.chain'_singleton _) ?_
              intro x hx y hy
              simp only [hq, Option.mem_def, Option.some.injEq] at hx
              simp only [List.head?_cons, Option.mem_def, Option.some.injEq] at hy
              subst hx; subst hy
              exact h2

/-- Claim C5: (1) within every captured group, consecutive recorded
samples are more than `minDistance` apart; (2) a sample at distance at
most `minDistance` from the last recorded one leaves the whole live
state untouched: nothing is rendered, recorded, or fed to the fitter. -/
theorem claim5 :
    (∀ (c : Cfg) (color : String) (t0 : ℝ) (raw : List Pt),
      List.Chain' (fun p q => ¬ (distanceTo q p ≤ c.minDistance))
        (liveStroke c color t0 raw).recorded) ∧
    (∀ (c : Cfg) (color : String) (t0 : ℝ) (st : LiveState) (p q : Pt),
      st.recorded.getLast? = some q → distanceTo p q ≤ c.minDistance →
      liveStep c color t0 st p = st) := by
  constructor
  · intro c color t0 raw
    exact liveStrokeFrom_chain c color t0 raw _ List.chain'_nil
  · intro c color t0 st p q h1 h2
    rw [liveStep, h1]
    exact if_pos h2

theorem claim5_witness :
    ((LiveState.mk (resetState defaultCfg) [⟨0, 0, 0⟩]
        [Op.dot "black" 0 0]).recorded.getLast? = some ⟨0, 0, 0⟩) ∧
    (distanceTo ⟨1, 0, 10⟩ ⟨0, 0, 0⟩ ≤ defaultCfg.minDistance) ∧
    (liveStep defaultCfg "black" 0
        ⟨resetState defaultCfg, [⟨0, 0, 0⟩], [Op.dot "black" 0 0]⟩ ⟨1, 0, 10⟩ =
      ⟨resetState defaultCfg, [⟨0, 0, 0⟩], [Op.dot "black" 0 0]⟩) := by
  have hd : distanceTo ⟨1, 0, 10⟩ ⟨0, 0, 0⟩ ≤ defaultCfg.minDistance := by
    have h1 : Real.sqrt 1 = 1 := Real.sqrt_one
    norm_num [distanceTo, defaultCfg, h1]
  exact ⟨rfl, hd, claim5.2 defaultCfg "black" 0 _ _ _ rfl hd⟩

theorem toPoint_of_time_ne (now : ℝ) (p : Pt) (h : p.time ≠ 0) :
    toPoint now p = p := by
  simp [toPoint, h]

theorem replayPoints_congr (c : Cfg) (now1 now2 : ℝ) :
    ∀ (l : List Pt) (st : FitState), (∀ p ∈ l, p.time ≠ 0) →
      replayPoints c now1 st l = replayPoints c now2 st l := by
  intro l
  induction l with
  | nil => intro st _; rfl
  | cons p ps ih =>
      intro st h
      have hp : toPoint now1 p = toPoint now2 p := by
        rw [toPoint_of_time_ne now1 p (h p (List.mem_cons_self p ps)),
          toPoint_of_time_ne now2 p (h p (List.mem_cons_self p ps))]
      simp only [replayPoints]
      rw [hp, ih (addPoint c st (toPoint now2 p)).1
        (fun q hq => h q (List.mem_cons_of_mem p hq))]

theorem replayGroup_congr (c : Cfg) (now1 now2 : ℝ) (g : PGroup)
    (h : ∀ p ∈ g.points, p.time ≠ 0) :
    replayGroup c now1 g = replayGroup c now2 g := by
  rcases g with ⟨col, _ | ⟨p, _ | ⟨q, rest⟩⟩⟩
  · rfl
  · rfl
  · have e1 : ∀ now : ℝ, replayGroup c now ⟨col, p :: q :: rest⟩ =
        ((replayPoints c now (resetState c) (p :: q :: rest)).2.1.map
          (fun b => Op.curve col (geom b)),
          (replayPoints c now (resetState c) (p :: q :: rest)).2.2) :=
      fun _ => rfl
    rw [e1, e1, replayPoints_congr c now1 now2 (p :: q :: rest) (resetState c) h]

/-- Claim C3 (amended): replay through `fromData` is deterministic —
independent of the wall clock — provided every recorded timestamp is
nonzero.  (A zero recorded time is replaced by `Date.now()` by the
`Point` constructor, which breaks determinism; see the
counterexample.) -/
theorem claim3_amended (c : Cfg) (gs : List PGroup) (now1 now2 : ℝ)
    (h : ∀ g ∈ gs, ∀ p ∈ g.points, p.time ≠ 0) :
    replayData c now1 gs = replayData c now2 gs := by
  unfold replayData
  congr 1
  apply List.map_congr_left
  intro g hg
  rw [replayGroup_congr c now1 now2 g (h g hg)]

theorem claim3_witness :
    (∀ g ∈ [PGroup.mk "black" [⟨0, 0, 1⟩, ⟨10, 0, 51⟩]],
      ∀ p ∈ g.points, p.time ≠ 0) ∧
    replayData defaultCfg 5 [PGroup.mk "black" [⟨0, 0, 1⟩, ⟨10, 0, 51⟩]] =
      replayData defaultCfg 6 [PGroup.mk "black" [⟨0, 0, 1⟩, ⟨10, 0, 51⟩]] := by
  have h : ∀ g ∈ [PGroup.mk "black" [⟨0, 0, 1⟩, ⟨10, 0, 51⟩]],
      ∀ p ∈ g.points, p.time ≠ 0 := by
    intro g hg p hp
    simp only [List.mem_singleton] at hg
    subst hg
    simp only [List.mem_cons, List.mem_singleton] at hp
    rcases hp with hp | hp | hp
    · subst hp; norm_num
    · subst hp; norm_num
    · simp at hp
  exact ⟨h, claim3_amended defaultCfg _ 5 6 h⟩

/-- Claim C3, counterexample: the first recorded point of a group
captured since `clear()` has recorded time 0, and the `Point`
constructor (`time || Date.now()`) then substitutes the wall clock, so
two replays of the same stored group at different wall-clock instants
emit segments with different widths. -/
theorem claim3_counterexample :
    replayData defaultCfg 1000 [PGroup.mk "black" [⟨0, 0, 0⟩, ⟨10, 0, 50⟩, ⟨20, 0, 100⟩]] ≠
    replayData defaultCfg 2000 [PGroup.mk "black" [⟨0, 0, 0⟩, ⟨10, 0, 50⟩, ⟨20, 0, 100⟩]] := by
  have h100 : Real.sqrt 100 = 10 := sqrt_eval (by norm_num) (by norm_num)
  intro h
  have h2 := congrArg (fun l : List Op =>
    l.map fun o => match o with
      | Op.curve _ cg => cg.we
      | Op.dot _ _ _ => 0) h
  simp only [replayData, replayGroup, replayPoints, addPoint, addPointAux, toPoint,
    resetState, calculateCurveWidths, strokeWidth, velocityFrom, distanceTo, geom,
    fromPoints, defaultCfg, List.map, List.flatten, List.append_nil] at h2
  norm_num [max_def, h100] at h2

theorem replayPoints_fed (c : Cfg) (now : ℝ) :
    ∀ (l : List Pt) (st : FitState),
      (replayPoints c now st l).2.2 = l.map (toPoint now) := by
  intro l
  induction l with
  | nil => intro st; rfl
  | cons p ps ih =>
      intro st
      simp only [replayPoints, List.map]
      rw [ih]

/-- Claim C9: `_fromData` applies no admission filter — every point of a
group with more than one point is fed to the fitter in order — and
close-spaced external data therefore produces a segment that live
capture of the very same samples would never emit (live capture admits
only the first of these samples and draws a dot, no curve). -/
theorem claim9 :
    (∀ (c : Cfg) (now : ℝ) (g : PGroup), 1 < g.points.length →
      (replayGroup c now g).2 = g.points.map (toPoint now)) ∧
    ((replayGroup defaultCfg 99
        ⟨"black", [⟨0, 0, 1⟩, ⟨1, 0, 2⟩, ⟨2, 0, 3⟩]⟩).1.length = 1) ∧
    ((liveStroke defaultCfg "black" 0
        [⟨0, 0, 1⟩, ⟨1, 0, 2⟩, ⟨2, 0, 3⟩]).ops.filter isCurve = []) := by
  refine ⟨?_, rfl, ?_⟩
  · intro c now g hg
    rcases g with ⟨col, _ | ⟨p, _ | ⟨q, rest⟩⟩⟩
    · simp at hg
    · simp at hg
    · exact replayPoints_fed c now (p :: q :: rest) (resetState c)
  · have h1 : Real.sqrt 1 = 1 := Real.sqrt_one
    have h4 : Real.sqrt 4 = 2 := sqrt_eval (by norm_num) (by norm_num)
    norm_num [liveStroke, liveStrokeFrom, liveStep, distanceTo, recOf, defaultCfg,
      h1, h4, isCurve, List.filter]

theorem claim9_witness :
    (1 < (PGroup.mk "black" [⟨0, 0, 1⟩, ⟨1, 0, 2⟩, ⟨2, 0, 3⟩]).points.length) ∧
    (replayGroup defaultCfg 7 ⟨"black", [⟨0, 0, 1⟩, ⟨1, 0, 2⟩, ⟨2, 0, 3⟩]⟩).2 =
      [(⟨0, 0, 1⟩ : Pt), ⟨1, 0, 2⟩, ⟨2, 0, 3⟩].map (toPoint 7) :=
  ⟨by norm_num, claim9.1 defaultCfg 7 _ (by norm_num)⟩


/-- Uniform time shift of a sample (positions unchanged). -/
def shiftPt (dt : ℝ) (p : Pt) : Pt := ⟨p.x, p.y, p.time + dt⟩

def shiftState (dt : ℝ) (st : FitState) : FitState :=
  ⟨st.lastPoints.map (shiftPt dt), st.lastVelocity, st.lastWidth⟩

def shiftBez (dt : ℝ) (b : Bezier) : Bezier :=
  ⟨shiftPt dt b.startPoint, b.control2, b.control1, shiftPt dt b.endPoint,
    b.startWidth, b.endWidth⟩

theorem geom_shiftBez (dt : ℝ) (b : Bezier) : geom (shiftBez dt b) = geom b := rfl

theorem distanceTo_shift (dt : ℝ) (p q : Pt) :
    distanceTo (shiftPt dt p) (shiftPt dt q) = distanceTo p q := rfl

theorem velocityFrom_shift (dt : ℝ) (p q : Pt) :
    velocityFrom (shiftPt dt p) (shiftPt dt q) = velocityFrom p q := by
  have ht : (shiftPt dt p).time - (shiftPt dt q).time = p.time - q.time := by
    simp [shiftPt]
  by_cases h : p.time = q.time
  · simp [velocityFrom, shiftPt, h]
  · have h2 : ¬ ((shiftPt dt p).time = (shiftPt dt q).time) := by simp [shiftPt, h]
    simp only [velocityFrom, if_neg h2, if_neg h, distanceTo_shift, ht]

theorem calculateControlPoints_shift (dt : ℝ) (a b c3 : Pt) :
    calculateControlPoints (shiftPt dt a) (shiftPt dt b) (shiftPt dt c3) =
      calculateControlPoints a b c3 := rfl

theorem fromPoints_shift (dt : ℝ) (p0 p1 p2 p3 : Pt) (ws we : ℝ) :
    fromPoints (shiftPt dt p0) (shiftPt dt p1) (shiftPt dt p2) (shiftPt dt p3) ws we =
      shiftBez dt (fromPoints p0 p1 p2 p3 ws we) := by
  simp [fromPoints, shiftBez, calculateControlPoints_shift]

theorem calculateCurveWidths_shift_vel (c : Cfg) (dt : ℝ) (st : FitState) (sp ep : Pt) :
    (calculateCurveWidths c (shiftState dt st) (shiftPt dt sp) (shiftPt dt ep)).1.lastVelocity =
      (calculateCurveWidths c st sp ep).1.lastVelocity := by
  simp [calculateCurveWidths, shiftState, velocityFrom_shift]

theorem calculateCurveWidths_shift_width (c : Cfg) (dt : ℝ) (st : FitState) (sp ep : Pt) :
    (calculateCurveWidths c (shiftState dt st) (shiftPt dt sp) (shiftPt dt ep)).1.lastWidth =
      (calculateCurveWidths c st sp ep).1.lastWidth := by
  simp [calculateCurveWidths, shiftState, velocityFrom_shift]

theorem calculateCurveWidths_shift_pair (c : Cfg) (dt : ℝ) (st : FitState) (sp ep : Pt) :
    (calculateCurveWidths c (shiftState dt st) (shiftPt dt sp) (shiftPt dt ep)).2 =
      (calculateCurveWidths c st sp ep).2 := by
  simp [calculateCurveWidths, shiftState, velocityFrom_shift]

theorem addPoint_shift (c : Cfg) (dt : ℝ) (st : FitState) (p : Pt) :
    addPoint c (shiftState dt st) (shiftPt dt p) =
      (shiftState dt (addPoint c st p).1, (addPoint c st p).2.map (shiftBez dt)) := by
  rw [addPoint, addPoint]
  have hm : (shiftState dt st).lastPoints ++ [shiftPt dt p] =
      (st.lastPoints ++ [p]).map (shiftPt dt) := by simp [shiftState]
  rw [hm]
  rcases hl : st.lastPoints ++ [p] with _ | ⟨a, _ | ⟨b, _ | ⟨c3, _ | ⟨d, rest⟩⟩⟩⟩
  · simp at hl
  · simp [addPointAux, shiftState]
  · simp [addPointAux, shiftState]
  · simp only [List.map, addPointAux, calculateCurveWidths_shift_vel,
      calculateCurveWidths_shift_width, calculateCurveWidths_shift_pair, fromPoints_shift]
    simp [shiftState]
  · simp only [List.map, addPointAux, calculateCurveWidths_shift_vel,
      calculateCurveWidths_shift_width, calculateCurveWidths_shift_pair, fromPoints_shift]
    simp [shiftState]

theorem fitRunFrom_shift (c : Cfg) (dt : ℝ) :
    ∀ (pts : List Pt) (st : FitState),
      fitRunFrom c (shiftState dt st) (pts.map (shiftPt dt)) =
        (shiftState dt (fitRunFrom c st pts).1,
          (fitRunFrom c st pts).2.map (shiftBez dt)) := by
  intro pts
  induction pts with
  | nil => intro st; rfl
  | cons p ps ih =>
      intro st
      simp only [List.map, fitRunFrom, addPoint_shift]
      rw [ih]
      rcases (addPoint c st p).2 with _ | b <;> simp


theorem fitRunFrom_append (c : Cfg) (l : List Pt) (p : Pt) : ∀ (st : FitState),
    fitRunFrom c st (l ++ [p]) =
      ((addPoint c (fitRunFrom c st l).1 p).1,
        (fitRunFrom c st l).2 ++ (addPoint c (fitRunFrom c st l).1 p).2.toList) := by
  induction l with
  | nil => intro st; simp [fitRunFrom]
  | cons q qs ih =>
      intro st
      show ((fitRunFrom c (addPoint c st q).1 (qs ++ [p])).1,
        (addPoint c st q).2.toList ++ (fitRunFrom c (addPoint c st q).1 (qs ++ [p])).2) = _
      rw [ih]
      simp [fitRunFrom, List.append_assoc]

/-- The sequence of drawing operations live capture issues for the
admitted samples `A` of one stroke: a dot at the first admitted sample,
then one curve per segment the fitter emits. -/
def opsOf (c : Cfg) (color : String) (A : List Pt) : List Op :=
  match A with
  | [] => []
  | a :: _ =>
      Op.dot color a.x a.y :: (fitRun c A).2.map (fun b => Op.curve color (geom b))

/-- Simulation invariant tying a live-capture state to the list `A` of
samples admitted so far. -/
def Rel (c : Cfg) (color : String) (t0 : ℝ) (A : List Pt) (st : LiveState) : Prop :=
  st.fs = (fitRun c A).1 ∧ st.recorded = A.map (recOf t0) ∧ st.ops = opsOf c color A

theorem liveStep_rel (c : Cfg) (color : String) (t0 : ℝ) (A : List Pt)
    (st : LiveState) (p : Pt) (h : Rel c color t0 A st) :
    Rel c color t0 A (liveStep c color t0 st p) ∨
    Rel c color t0 (A ++ [p]) (liveStep c color t0 st p) := by
  obtain ⟨hfs, hrec, hops⟩ := h
  cases hq : st.recorded.getLast? with
  | none =>
      right
      have hA : A = [] := by
        have := List.getLast?_eq_none_iff.mp hq
        rw [hrec] at this
        simpa using this
      subst hA
      refine ⟨?_, ?_, ?_⟩
      · simp only [liveStep, hq]
        rw [hfs]
        rfl
      · simp only [liveStep, hq]
        rw [hrec]
        rfl
      · simp only [liveStep, hq]
        rw [hops]
        simp only [opsOf, List.nil_append]
        have hemit : (fitRun c [p]).2 = [] := rfl
        rw [hemit]
        rfl
  | some q =>
      by_cases hd : distanceTo p q ≤ c.minDistance
      · left
        have : liveStep c color t0 st p = st := by
          rw [liveStep, hq]
          exact if_pos hd
        rw [this]
        exact ⟨hfs, hrec, hops⟩
      · right
        have hAne : A ≠ [] := by
          intro hA
          rw [hA] at hrec
          simp at hrec
          rw [hrec] at hq
          simp at hq
        have hstep : liveStep c color t0 st p =
            ⟨(addPoint c st.fs p).1, st.recorded ++ [recOf t0 p],
              st.ops ++ (addPoint c st.fs p).2.toList.map
                fun b => Op.curve color (geom b)⟩ := by
          rw [liveStep, hq]
          exact if_neg hd
        rw [hstep]
        refine ⟨?_, ?_, ?_⟩
        · simp only [hfs, fitRun, fitRunFrom_append]
        · simp [hrec, recOf]
        · rcases A with _ | ⟨a, A2⟩
          · exact absurd rfl hAne
          · simp only [hops, opsOf, fitRun, hfs, List.cons_append]
            rw [show a :: (A2 ++ [p]) = (a :: A2) ++ [p] from rfl, fitRunFrom_append]
            simp [List.map_append]

theorem liveStrokeFrom_rel (c : Cfg) (color : String) (t0 : ℝ) :
    ∀ (raw : List Pt) (st : LiveState) (A : List Pt), Rel c color t0 A st →
      ∃ A2, Rel c color t0 A2 (liveStrokeFrom c color t0 st raw) := by
  intro raw
  induction raw with
  | nil => intro st A h; exact ⟨A, h⟩
  | cons p ps ih =>
      intro st A h
      rcases liveStep_rel c color t0 A st p h with h2 | h2
      · exact ih (liveStep c color t0 st p) A h2
      · exact ih (liveStep c color t0 st p) (A ++ [p]) h2

theorem liveStroke_rel (c : Cfg) (color : String) (t0 : ℝ) (raw : List Pt) :
    ∃ A, Rel c color t0 A (liveStroke c color t0 raw) := by
  apply liveStrokeFrom_rel c color t0 raw _ []
  exact ⟨rfl, rfl, rfl⟩

theorem replayPoints_eq (c : Cfg) (now : ℝ) :
    ∀ (l : List Pt) (st : FitState),
      replayPoints c now st l =
        ((fitRunFrom c st (l.map (toPoint now))).1,
          (fitRunFrom c st (l.map (toPoint now))).2, l.map (toPoint now)) := by
  intro l
  induction l with
  | nil => intro st; rfl
  | cons p ps ih =>
      intro st
      simp only [replayPoints, List.map, fitRunFrom, ih]

theorem map_toPoint_id (now : ℝ) (l : List Pt) (h : ∀ p ∈ l, p.time ≠ 0) :
    l.map (toPoint now) = l := by
  have h2 : l.map (toPoint now) = l.map id := by
    apply List.map_congr_left
    intro p hp
    rw [toPoint_of_time_ne now p (h p hp)]
    rfl
  rw [h2, List.map_id]

theorem recOf_eq_shiftPt (t0 : ℝ) (p : Pt) : recOf t0 p = shiftPt (-t0) p := by
  simp [recOf, shiftPt, sub_eq_add_neg]


/-- Claim C4 (amended): replaying the group captured by a live stroke
issues exactly the live stroke's Curve operations, in order — but not
its initial Dot: for a multi-point group, live drawing paints a dot at
the first admitted sample that `_fromData` never re-issues.  The width
fidelity additionally needs every recorded time to be nonzero (else the
`Point` constructor substitutes the wall clock, claim C3). -/
theorem claim4_amended (c : Cfg) (color : String) (t0 : ℝ) (raw : List Pt) (now : ℝ)
    (htime : ∀ p ∈ (liveStroke c color t0 raw).recorded, p.time ≠ 0)
    (hlen : 1 < (liveStroke c color t0 raw).recorded.length) :
    (replayGroup c now ⟨color, (liveStroke c color t0 raw).recorded⟩).1 =
      (liveStroke c color t0 raw).ops.tail ∧
    ∃ x y, (liveStroke c color t0 raw).ops.head? = some (Op.dot color x y) := by
  obtain ⟨A, hfs, hrec, hops⟩ := liveStroke_rel c color t0 raw
  rcases A with _ | ⟨a, _ | ⟨a2, A3⟩⟩
  · rw [hrec] at hlen; simp at hlen
  · rw [hrec] at hlen; simp at hlen
  · rw [hrec, hops]
    constructor
    · have e1 : replayGroup c now ⟨color, (a :: a2 :: A3).map (recOf t0)⟩ =
          ((replayPoints c now (resetState c)
              ((a :: a2 :: A3).map (recOf t0))).2.1.map
            (fun b => Op.curve color (geom b)),
            (replayPoints c now (resetState c)
              ((a :: a2 :: A3).map (recOf t0))).2.2) := rfl
      have e2 : (opsOf c color (a :: a2 :: A3)).tail =
          (fitRun c (a :: a2 :: A3)).2.map (fun b => Op.curve color (geom b)) := rfl
      rw [e1, e2, replayPoints_eq]
      have htime2 : ∀ p ∈ (a :: a2 :: A3).map (recOf t0), p.time ≠ 0 := by
        rw [← hrec]; exact htime
      have hmap : ((a :: a2 :: A3).map (recOf t0)).map (toPoint now) =
          (a :: a2 :: A3).map (recOf t0) := map_toPoint_id now _ htime2
      simp only [hmap]
      have hshift : (a :: a2 :: A3).map (recOf t0) =
          (a :: a2 :: A3).map (shiftPt (-t0)) := by
        apply List.map_congr_left
        intro p _
        exact recOf_eq_shiftPt t0 p
      rw [hshift]
      have hrun : fitRunFrom c (resetState c) ((a :: a2 :: A3).map (shiftPt (-t0))) =
          (shiftState (-t0) (fitRunFrom c (resetState c) (a :: a2 :: A3)).1,
            (fitRunFrom c (resetState c) (a :: a2 :: A3)).2.map (shiftBez (-t0))) :=
        fitRunFrom_shift c (-t0) (a :: a2 :: A3) (resetState c)
      rw [hrun]
      simp [fitRun, List.map_map, Function.comp_def, geom_shiftBez]
    · exact ⟨a.x, a.y, rfl⟩

theorem claim4_witness :
    (∀ p ∈ (liveStroke defaultCfg "black" 40
        [⟨0, 0, 100⟩, ⟨10, 0, 150⟩, ⟨20, 0, 200⟩]).recorded, p.time ≠ 0) ∧
    1 < (liveStroke defaultCfg "black" 40
        [⟨0, 0, 100⟩, ⟨10, 0, 150⟩, ⟨20, 0, 200⟩]).recorded.length ∧
    ((replayGroup defaultCfg 7 ⟨"black", (liveStroke defaultCfg "black" 40
        [⟨0, 0, 100⟩, ⟨10, 0, 150⟩, ⟨20, 0, 200⟩]).recorded⟩).1 =
      (liveStroke defaultCfg "black" 40
        [⟨0, 0, 100⟩, ⟨10, 0, 150⟩, ⟨20, 0, 200⟩]).ops.tail ∧
    ∃ x y, (liveStroke defaultCfg "black" 40
        [⟨0, 0, 100⟩, ⟨10, 0, 150⟩, ⟨20, 0, 200⟩]).ops.head? =
          some (Op.dot "black" x y)) := by
  have h100 : Real.sqrt 100 = 10 := sqrt_eval (by norm_num) (by norm_num)
  have hrec : (liveStroke defaultCfg "black" 40
      [⟨0, 0, 100⟩, ⟨10, 0, 150⟩, ⟨20, 0, 200⟩]).recorded =
      [⟨0, 0, 60⟩, ⟨10, 0, 110⟩, ⟨20, 0, 160⟩] := by
    norm_num [liveStroke, liveStrokeFrom, liveStep, distanceTo, recOf, defaultCfg, h100]
  have htime : ∀ p ∈ (liveStroke defaultCfg "black" 40
      [⟨0, 0, 100⟩, ⟨10, 0, 150⟩, ⟨20, 0, 200⟩]).recorded, p.time ≠ 0 := by
    rw [hrec]
    intro p hp
    simp only [List.mem_cons, List.mem_singleton] at hp
    rcases hp with hp | hp | hp | hp
    · subst hp; norm_num
    · subst hp; norm_num
    · subst hp; norm_num
    · simp at hp
  have hlen : 1 < (liveStroke defaultCfg "black" 40
      [⟨0, 0, 100⟩, ⟨10, 0, 150⟩, ⟨20, 0, 200⟩]).recorded.length := by
    rw [hrec]; norm_num
  exact ⟨htime, hlen, claim4_amended defaultCfg "black" 40 _ 7 htime hlen⟩

/-- Claim C4, counterexample: live capture of three samples issues two
drawing operations (a dot, then a curve), while replaying the captured
group issues only one (the curve): reconstruction does not repeat the
same operation sequence as the live draw. -/
theorem claim4_counterexample :
    (liveStroke defaultCfg "black" 0
      [⟨0, 0, 0⟩, ⟨10, 0, 50⟩, ⟨20, 0, 100⟩]).ops.length = 2 ∧
    (replayGroup defaultCfg 555 ⟨"black", (liveStroke defaultCfg "black" 0
      [⟨0, 0, 0⟩, ⟨10, 0, 50⟩, ⟨20, 0, 100⟩]).recorded⟩).1.length = 1 ∧
    (replayGroup defaultCfg 555 ⟨"black", (liveStroke defaultCfg "black" 0
      [⟨0, 0, 0⟩, ⟨10, 0, 50⟩, ⟨20, 0, 100⟩]).recorded⟩).1 ≠
      (liveStroke defaultCfg "black" 0
        [⟨0, 0, 0⟩, ⟨10, 0, 50⟩, ⟨20, 0, 100⟩]).ops := by
  have h100 : Real.sqrt 100 = 10 := sqrt_eval (by norm_num) (by norm_num)
  have hrec : (liveStroke defaultCfg "black" 0
      [⟨0, 0, 0⟩, ⟨10, 0, 50⟩, ⟨20, 0, 100⟩]).recorded =
      [⟨0, 0, 0⟩, ⟨10, 0, 50⟩, ⟨20, 0, 100⟩] := by
    norm_num [liveStroke, liveStrokeFrom, liveStep, distanceTo, recOf, defaultCfg, h100]
  have hops : (liveStroke defaultCfg "black" 0
      [⟨0, 0, 0⟩, ⟨10, 0, 50⟩, ⟨20, 0, 100⟩]).ops.length = 2 := by
    norm_num [liveStroke, liveStrokeFrom, liveStep, distanceTo, recOf, defaultCfg, h100,
      addPoint, addPointAux, resetState, Option.toList]
  have hrep : (replayGroup defaultCfg 555 ⟨"black", (liveStroke defaultCfg "black" 0
      [⟨0, 0, 0⟩, ⟨10, 0, 50⟩, ⟨20, 0, 100⟩]).recorded⟩).1.length = 1 := by
    rw [hrec]
    rfl
  refine ⟨hops, hrep, fun h => ?_⟩
  have := congrArg List.length h
  rw [hrep, hops] at this
  norm_num at this


/-- An IEEE double as the JavaScript code sees it on the degenerate
paths: either NaN or a real value.  (Signed infinities never arise on
the modelled paths: the only division whose divisor can vanish is
`k = l2 / (l1 + l2)`, and there the numerator vanishes too, giving
`0/0 = NaN`.) -/
inductive JSNum where
  | nan : JSNum
  | val : ℝ → JSNum

def addJ : JSNum → JSNum → JSNum
  | .val a, .val b => .val (a + b)
  | _, _ => .nan

def subJ : JSNum → JSNum → JSNum
  | .val a, .val b => .val (a - b)
  | _, _ => .nan

def mulJ : JSNum → JSNum → JSNum
  | .val a, .val b => .val (a * b)
  | _, _ => .nan

/-- JavaScript division restricted to the modelled paths: `x/0` is
mapped to NaN (faithful whenever the numerator also vanishes, which is
the only reachable zero-divisor case here). -/
def divJ : JSNum → JSNum → JSNum
  | .val a, .val b => if b = 0 then .nan else .val (a / b)
  | _, _ => .nan

def sqrtJ : JSNum → JSNum
  | .val a => if a < 0 then .nan else .val (Real.sqrt a)
  | .nan => .nan

def floorJ : JSNum → JSNum
  | .val a => .val (⌊a⌋ : ℝ)
  | .nan => .nan

def minJ : JSNum → JSNum → JSNum
  | .val a, .val b => .val (min a b)
  | _, _ => .nan

def isNaNJ : JSNum → Bool
  | .nan => true
  | .val _ => false

theorem addJ_nan_left (x : JSNum) : addJ .nan x = .nan := by cases x <;> rfl
theorem addJ_nan_right (x : JSNum) : addJ x .nan = .nan := by cases x <;> rfl
theorem subJ_nan_left (x : JSNum) : subJ .nan x = .nan := by cases x <;> rfl
theorem subJ_nan_right (x : JSNum) : subJ x .nan = .nan := by cases x <;> rfl
theorem mulJ_nan_left (x : JSNum) : mulJ .nan x = .nan := by cases x <;> rfl
theorem mulJ_nan_right (x : JSNum) : mulJ x .nan = .nan := by cases x <;> rfl
theorem sqrtJ_nan : sqrtJ .nan = .nan := rfl
theorem isNaNJ_iff (x : JSNum) : isNaNJ x = true ↔ x = .nan := by
  cases x <;> simp [isNaNJ]

structure JPt where
  x : JSNum
  y : JSNum

/-- `Bezier` over JavaScript numbers, same field order as the source
constructor. -/
structure JBezier where
  startPoint : JPt
  control2 : JPt
  control1 : JPt
  endPoint : JPt
  startWidth : JSNum
  endWidth : JSNum

/-- `Bezier.calculateControlPoints` over JavaScript numbers. -/
def calculateControlPointsJ (s1 s2 s3 : JPt) : JPt × JPt :=
  let dx1 := subJ s1.x s2.x
  let dy1 := subJ s1.y s2.y
  let dx2 := subJ s2.x s3.x
  let dy2 := subJ s2.y s3.y
  let m1 : JPt := ⟨divJ (addJ s1.x s2.x) (.val 2), divJ (addJ s1.y s2.y) (.val 2)⟩
  let m2 : JPt := ⟨divJ (addJ s2.x s3.x) (.val 2), divJ (addJ s2.y s3.y) (.val 2)⟩
  let l1 := sqrtJ (addJ (mulJ dx1 dx1) (mulJ dy1 dy1))
  let l2 := sqrtJ (addJ (mulJ dx2 dx2) (mulJ dy2 dy2))
  let dxm := subJ m1.x m2.x
  let dym := subJ m1.y m2.y
  let k := divJ l2 (addJ l1 l2)
  let cm : JPt := ⟨addJ m2.x (mulJ dxm k), addJ m2.y (mulJ dym k)⟩
  let tx := subJ s2.x cm.x
  let ty := subJ s2.y cm.y
  (⟨addJ m1.x tx, addJ m1.y ty⟩, ⟨addJ m2.x tx, addJ m2.y ty⟩)

/-- `Bezier.fromPoints` over JavaScript numbers. -/
def fromPointsJ (p0 p1 p2 p3 : JPt) (ws we : JSNum) : JBezier :=
  ⟨p1, (calculateControlPointsJ p0 p1 p2).2, (calculateControlPointsJ p1 p2 p3).1,
    p2, ws, we⟩

/-- `Bezier.prototype.point`: the cubic Bernstein sum, with the
left-to-right addition order of the source. -/
def bezPointJ (t : ℝ) (start c1 c2 e : JSNum) : JSNum :=
  addJ (addJ (addJ
    (mulJ (mulJ (mulJ start (.val (1 - t))) (.val (1 - t))) (.val (1 - t)))
    (mulJ (mulJ (mulJ (mulJ (.val 3) c1) (.val (1 - t))) (.val (1 - t))) (.val t)))
    (mulJ (mulJ (mulJ (mulJ (.val 3) c2) (.val (1 - t))) (.val t)) (.val t)))
    (mulJ (mulJ (mulJ e (.val t)) (.val t)) (.val t))

/-- One iteration of `Bezier.prototype.length`'s loop: state is
`(accumulated length, px, py)`. -/
def bezLengthStep (b : JBezier) (st : JSNum × JSNum × JSNum) (i : ℕ) :
    JSNum × JSNum × JSNum :=
  let t : ℝ := i / 10
  let cx := bezPointJ t b.startPoint.x b.control1.x b.control2.x b.endPoint.x
  let cy := bezPointJ t b.startPoint.y b.control1.y b.control2.y b.endPoint.y
  let len :=
    if 0 < i then
      addJ st.1 (sqrtJ (addJ (mulJ (subJ cx st.2.1) (subJ cx st.2.1))
        (mulJ (subJ cy st.2.2) (subJ cy st.2.2))))
    else st.1
  (len, cx, cy)

/-- `Bezier.prototype.length`: 11 samples (`steps = 10`); `px`/`py`
start out unassigned in the source and are first read only when
`i > 0`, after having been written — the initial `nan` here is never
consulted. -/
def bezLength (b : JBezier) : JSNum :=
  ((List.range 11).foldl (bezLengthStep b) (.val 0, .nan, .nan)).1

/-- `_drawCurve`'s step count: `Math.floor(curve.length()) * 2`. -/
def drawStepsJ (b : JBezier) : JSNum := mulJ (floorJ (bezLength b)) (.val 2)

/-- Number of iterations of `for (i = 0; i < drawSteps; i += 1)`: zero
when the bound is NaN (every comparison with NaN is false). -/
def iterCount : JSNum → ℕ
  | .nan => 0
  | .val r => if 0 < r then ⌈r⌉.toNat else 0

/-- An operation issued to the raster canvas context by `_drawCurve`
(`disc` stands for the `moveTo`/`arc` pair of `_drawCurveSegment`). -/
inductive RasterOp where
  | beginPath : RasterOp
  | setFillStyle : String → RasterOp
  | disc : JSNum → JSNum → JSNum → RasterOp
  | closePath : RasterOp
  | fill : RasterOp

/-- The disc painted at loop index `i` of `_drawCurve`. -/
def discAt (maxWidth : ℝ) (b : JBezier) (steps : JSNum) (i : ℕ) : RasterOp :=
  let t := divJ (.val i) steps
  let tt := mulJ t t
  let ttt := mulJ tt t
  let u := subJ (.val 1) t
  let uu := mulJ u u
  let uuu := mulJ uu u
  let x := addJ (addJ (addJ (mulJ uuu b.startPoint.x)
    (mulJ (mulJ (mulJ (.val 3) uu) t) b.control1.x))
    (mulJ (mulJ (mulJ (.val 3) u) tt) b.control2.x))
    (mulJ ttt b.endPoint.x)
  let y := addJ (addJ (addJ (mulJ uuu b.startPoint.y)
    (mulJ (mulJ (mulJ (.val 3) uu) t) b.control1.y))
    (mulJ (mulJ (mulJ (.val 3) u) tt) b.control2.y))
    (mulJ ttt b.endPoint.y)
  let width := minJ (addJ b.startWidth (mulJ ttt (subJ b.endWidth b.startWidth)))
    (.val maxWidth)
  .disc x y width

/-- The discs `_drawCurve` paints for one segment. -/
def rasterDiscs (maxWidth : ℝ) (b : JBezier) : List RasterOp :=
  (List.range (iterCount (drawStepsJ b))).map (discAt maxWidth b (drawStepsJ b))

/-- Every context operation `_drawCurve` issues for one segment: the
path is opened, the fill style set and the (possibly empty) disc list
painted, then the path is closed and filled — with no NaN check
anywhere. -/
def rasterCurveOps (maxWidth : ℝ) (color : String) (b : JBezier) : List RasterOp :=
  RasterOp.beginPath :: RasterOp.setFillStyle color ::
    (rasterDiscs maxWidth b ++ [RasterOp.closePath, RasterOp.fill])

structure SvgPath where
  color : String
  curve : JBezier

/-- The SVG callback of `_toSVG` for one segment: the path element is
appended only when all four control coordinates pass the explicit
`isNaN` check. -/
def svgCurvePaths (color : String) (b : JBezier) : List SvgPath :=
  if (!isNaNJ b.control1.x && !isNaNJ b.control1.y
      && !isNaNJ b.control2.x && !isNaNJ b.control2.y) = true
  then [⟨color, b⟩] else []

theorem bezPointJ_nan_c1 (t : ℝ) (start c2 e : JSNum) :
    bezPointJ t start .nan c2 e = .nan := by
  simp [bezPointJ, mulJ_nan_right, mulJ_nan_left, addJ_nan_left, addJ_nan_right]

theorem bezPointJ_nan_c2 (t : ℝ) (start c1 e : JSNum) :
    bezPointJ t start c1 .nan e = .nan := by
  simp [bezPointJ, mulJ_nan_right, mulJ_nan_left, addJ_nan_left, addJ_nan_right]

theorem bezLength_nan_x (b : JBezier)
    (hx : ∀ t : ℝ, bezPointJ t b.startPoint.x b.control1.x b.control2.x b.endPoint.x = .nan) :
    bezLength b = .nan := by
  simp [bezLength, show List.range 11 = [0, 1, 2, 3, 4, 5, 6, 7, 8, 9, 10] from rfl,
    bezLengthStep, hx, subJ_nan_left, subJ_nan_right, mulJ_nan_left, mulJ_nan_right,
    addJ_nan_left, addJ_nan_right, sqrtJ_nan]

theorem bezLength_nan_y (b : JBezier)
    (hy : ∀ t : ℝ, bezPointJ t b.startPoint.y b.control1.y b.control2.y b.endPoint.y = .nan) :
    bezLength b = .nan := by
  simp [bezLength, show List.range 11 = [0, 1, 2, 3, 4, 5, 6, 7, 8, 9, 10] from rfl,
    bezLengthStep, hy, subJ_nan_left, subJ_nan_right, mulJ_nan_left, mulJ_nan_right,
    addJ_nan_left, addJ_nan_right, sqrtJ_nan]

theorem bezLength_nan_of_control (b : JBezier)
    (h : isNaNJ b.control1.x = true ∨ isNaNJ b.control1.y = true ∨
      isNaNJ b.control2.x = true ∨ isNaNJ b.control2.y = true) :
    bezLength b = .nan := by
  rcases h with h | h | h | h
  · exact bezLength_nan_x b (fun t => by rw [(isNaNJ_iff _).mp h, bezPointJ_nan_c1])
  · exact bezLength_nan_y b (fun t => by rw [(isNaNJ_iff _).mp h, bezPointJ_nan_c1])
  · exact bezLength_nan_x b (fun t => by rw [(isNaNJ_iff _).mp h, bezPointJ_nan_c2])
  · exact bezLength_nan_y b (fun t => by rw [(isNaNJ_iff _).mp h, bezPointJ_nan_c2])

/-- Claim C8 (amended): a segment with a NaN control coordinate is
explicitly detected and skipped in the SVG export path; in the raster
path there is no detection — `_drawCurve` still runs — but the NaN arc
length makes the step count NaN, so the drawing loop runs zero times
and no disc is painted. -/
theorem claim8_amended (maxW : ℝ) (color : String) (b : JBezier)
    (h : isNaNJ b.control1.x = true ∨ isNaNJ b.control1.y = true ∨
      isNaNJ b.control2.x = true ∨ isNaNJ b.control2.y = true) :
    svgCurvePaths color b = [] ∧ rasterDiscs maxW b = [] := by
  constructor
  · rcases h with h | h | h | h <;> simp [svgCurvePaths, h]
  · rw [rasterDiscs, drawStepsJ, bezLength_nan_of_control b h]
    rfl

/-- The segment `_addPoint` fits on a window of four identical points:
`k = 0/0` is NaN and both control points become NaN. -/
def degenerateJBezier : JBezier :=
  fromPointsJ ⟨.val 0, .val 0⟩ ⟨.val 0, .val 0⟩ ⟨.val 0, .val 0⟩ ⟨.val 0, .val 0⟩
    (.val 1) (.val 1)

/-- Claim C8, counterexample: this NaN-control segment is not skipped by
the raster path — `_drawCurve` is invoked and still issues `beginPath`,
`fillStyle` and `fill` on the context (though no disc), so there is no
detection before emission there, unlike the SVG path. -/
theorem claim8_counterexample :
    (isNaNJ degenerateJBezier.control1.x = true) ∧
    RasterOp.fill ∈ rasterCurveOps 2.5 "black" degenerateJBezier := by
  constructor
  · norm_num [degenerateJBezier, fromPointsJ, calculateControlPointsJ, addJ, subJ,
      mulJ, divJ, sqrtJ, isNaNJ, Real.sqrt_zero, addJ_nan_right, subJ_nan_right,
      mulJ_nan_right]
  · simp [rasterCurveOps]

theorem claim8_witness :
    (isNaNJ degenerateJBezier.control1.x = true ∨
      isNaNJ degenerateJBezier.control1.y = true ∨
      isNaNJ degenerateJBezier.control2.x = true ∨
      isNaNJ degenerateJBezier.control2.y = true) ∧
    (svgCurvePaths "black" degenerateJBezier = [] ∧
      rasterDiscs 2.5 degenerateJBezier = []) := by
  have h : isNaNJ degenerateJBezier.control1.x = true := by
    norm_num [degenerateJBezier, fromPointsJ, calculateControlPointsJ, addJ, subJ,
      mulJ, divJ, sqrtJ, isNaNJ, Real.sqrt_zero, addJ_nan_right, subJ_nan_right,
      mulJ_nan_right]
  exact ⟨Or.inl h, claim8_amended 2.5 "black" degenerateJBezier (Or.inl h)⟩

end

end SigPad
